import Mathlib

/-!
Shallow embedding of `src/sudoku.py`.

The Python object stores the 81 cells as `self._grid`, a flat list of
one-element mutable boxes in row-major order (`_grid[x + 9*y]` is cell
`(x, y)`), and the three views `rows`, `columns`, `blocks` are lists of
references to those same boxes.  Here the state is the flat list of box
contents, and each view is the (static) list of flat indices its groups
reference, exactly as assembled in `Sudoku.__init__`.  Python list indexing
(negative wrap-around, IndexError on out-of-range) is modelled by `pyIdx` /
`pyGet` returning `Option`.
-/

/-- Python list index resolution for a list of length `n`: a negative index
counts from the end; a resolved index outside `[0, n)` is an IndexError
(`none`). -/
def pyIdx (n : Nat) (i : Int) : Option Nat :=
  let j := if i < 0 then i + n else i
  if 0 ≤ j ∧ j < n then some j.toNat else none

/-- Python `l[i]` for reading. -/
def pyGet (l : List Int) (i : Int) : Option Int :=
  (pyIdx l.length i).bind fun j => l.get? j

/-- The state of a constructed `Sudoku` object: the contents of the 81 cell
boxes of `self._grid`, row-major.  `Sudoku.__init__` indexes `_grid[x + 9*y]`
for all `x, y` in `[0, 8]` while building its views, so every constructed
object has `81 ≤ grid.length`; every mutation is a `List.set`, which keeps
the length. -/
structure Sudoku where
  grid : List Int
  hlen : 81 ≤ grid.length

/-- `Sudoku.__init__(puzzle)`: appends `[int(element)]` for every element of
every row (row-major flattening; elements are modelled as already-parsed
integers, on which Python `int` is the identity), then builds the three
views by indexing `_grid[x + 9*y]` for `x, y` in `[0, 8]`.  The code performs
no shape or range validation; the only failure is the IndexError raised
while building the views when the flattened input has fewer than 81
elements. -/
def mkSudoku (puzzle : List (List Int)) : Option Sudoku :=
  if h : 81 ≤ puzzle.flatten.length then some ⟨puzzle.flatten, h⟩ else none

/-- `self.rows[i]`: the flat indices of the boxes referenced by row `i`
(`__init__`, the `rows` loop): `x + 9*i` for `x = 0, …, 8`. -/
def rowIdx (i : Nat) : List Nat :=
  (List.range 9).map fun x => x + 9 * i

/-- `self.columns[i]` (`__init__`, the `columns` loop): `i + 9*y` for
`y = 0, …, 8`. -/
def colIdx (i : Nat) : List Nat :=
  (List.range 9).map fun y => i + 9 * y

/-- `self.blocks[i]` (`__init__`, the `blocks` loop): `x_start = (i % 3) * 3`,
`y_start = (i // 3) * 3`, with `x` the outer and `y` the inner loop. -/
def blkIdx (i : Nat) : List Nat :=
  (List.range 3).flatMap fun dx =>
    (List.range 3).map fun dy => ((i % 3) * 3 + dx) + 9 * ((i / 3) * 3 + dy)

/-- `Sudoku.place(value, x, y)`: `self._grid[x + 9 * y][0] = value` — a raw
Python indexed write with no bounds check of its own. -/
def Sudoku.place (s : Sudoku) (value x y : Int) : Option Sudoku :=
  match pyIdx s.grid.length (x + 9 * y) with
  | none => none
  | some j => some ⟨s.grid.set j value, by simpa using s.hlen⟩

/-- `Sudoku.unplace(x, y)`: `self._grid[x + 9 * y][0] = 0`. -/
def Sudoku.unplace (s : Sudoku) (x y : Int) : Option Sudoku :=
  match pyIdx s.grid.length (x + 9 * y) with
  | none => none
  | some j => some ⟨s.grid.set j 0, by simpa using s.hlen⟩

/-- `Sudoku.value_at(x, y)`: `-1` unless `x < 9 and y < 9 and x >= 0 and
y >= 0`, in which case `self._grid[x + 9 * y][0]` is read.  Inside the guard
the flat index lies in `[0, 80] ⊆ [0, grid.length)`, so on a constructed
grid the read never fails and the `getD` default is never used. -/
def Sudoku.value_at (s : Sudoku) (x y : Int) : Int :=
  if x < 9 ∧ y < 9 ∧ 0 ≤ x ∧ 0 ≤ y then (pyGet s.grid (x + 9 * y)).getD 0
  else -1

/-- `Sudoku.row_values(i)`: `sum(self.rows[i], [])` — the 9 box contents of
row `i`, in column order. -/
def Sudoku.row_values (s : Sudoku) (i : Nat) : List Int :=
  (rowIdx i).map fun j => s.grid.getD j 0

/-- `Sudoku.column_values(i)`: `sum(self.columns[i], [])`. -/
def Sudoku.column_values (s : Sudoku) (i : Nat) : List Int :=
  (colIdx i).map fun j => s.grid.getD j 0

/-- `Sudoku.block_values(i)`: `sum(self.blocks[i], [])`. -/
def Sudoku.block_values (s : Sudoku) (i : Nat) : List Int :=
  (blkIdx i).map fun j => s.grid.getD j 0

/-- `Sudoku.block_index_of(x, y) = (y // 3) * 3 + x // 3`.  The method never
reads `self`; coordinates are used at non-negative values, where Python `//`
is `Nat` division. -/
def block_index_of (x y : Nat) : Nat :=
  (y / 3) * 3 + x / 3

/-- `Sudoku.options_at(x, y)`: `{1,…,9} - (set(row) | set(column) | set(block))`.
The Python result `list(options)` is modelled by the `Finset` itself
(unordered, duplicate-free). -/
def Sudoku.options_at (s : Sudoku) (x y : Nat) : Finset Int :=
  ({1, 2, 3, 4, 5, 6, 7, 8, 9} : Finset Int) \
    ((s.row_values y).toFinset ∪ (s.column_values x).toFinset ∪
      (s.block_values (block_index_of x y)).toFinset)

/-- `Sudoku.is_solved()`: for each `i` in `0..8` the remainders
`{1,…,9} - set(row_values i)` etc. are computed and the loop breaks with
`False` as soon as their union is nonempty; the early `break` is
observationally `List.all`. -/
def Sudoku.is_solved (s : Sudoku) : Bool :=
  (List.range 9).all fun i =>
    decide (((({1, 2, 3, 4, 5, 6, 7, 8, 9} : Finset Int) \ (s.row_values i).toFinset) ∪
      (({1, 2, 3, 4, 5, 6, 7, 8, 9} : Finset Int) \ (s.column_values i).toFinset) ∪
      (({1, 2, 3, 4, 5, 6, 7, 8, 9} : Finset Int) \ (s.block_values i).toFinset)) = ∅)

/-- `Sudoku.next_empty_index()`: scans `y` outer, `x` inner, recording the
first `(x, y)` with `value_at(x, y) == 0`.  The guard
`next_x == -1 and next_y == -1` keeps the accumulator at its first hit, so
the loop-with-break is this fold. -/
def Sudoku.next_empty_index (s : Sudoku) : Int × Int :=
  (List.range 9).foldl
    (fun acc (y : Nat) => (List.range 9).foldl
      (fun acc2 (x : Nat) =>
        if s.value_at x y = 0 ∧ acc2.1 = -1 ∧ acc2.2 = -1 then ((x : Int), (y : Int))
        else acc2)
      acc)
    (-1, -1)

/-- The whitespace characters stripped by Python `str.strip()`. -/
def isPySpace (c : Char) : Bool :=
  c == ' ' || c == '\t' || c == '\n' || c == '\r' || c == '\x0B' || c == '\x0C'

/-- Python `str.strip()` on a character list. -/
def stripWS (l : List Char) : List Char :=
  ((l.dropWhile isPySpace).reverse.dropWhile isPySpace).reverse

/-- Python `str(e)` for an integer `e`. -/
def intRepr (i : Int) : List Char :=
  if i < 0 then '-' :: Nat.toDigits 10 i.natAbs else Nat.toDigits 10 i.toNat

/-- `Sudoku.__str__`: for each row, `"".join(str(e) for e in sum(rows[i], []))`
followed by `"\n"`, all accumulated and finally `strip()`ped.  Strings are
modelled as character lists. -/
def Sudoku.strRepr (s : Sudoku) : List Char :=
  stripWS ((List.range 9).foldl
    (fun acc i => acc ++ ((s.row_values i).map intRepr).flatten ++ ['\n']) [])

/-- The complete solved puzzle used by the spec's round-trip test, as rows of
already-parsed digits. -/
def solvedRows : List (List Int) :=
  [[5, 3, 4, 6, 7, 8, 9, 1, 2],
   [6, 7, 2, 1, 9, 5, 3, 4, 8],
   [1, 9, 8, 3, 4, 2, 5, 6, 7],
   [8, 5, 9, 7, 6, 1, 4, 2, 3],
   [4, 2, 6, 8, 5, 3, 7, 9, 1],
   [7, 1, 3, 9, 2, 4, 8, 5, 6],
   [9, 6, 1, 5, 3, 7, 2, 8, 4],
   [2, 8, 7, 4, 1, 9, 6, 3, 5],
   [3, 4, 5, 2, 8, 6, 1, 7, 9]]

/-- The constructed state for `solvedRows`. -/
def solvedSudoku : Sudoku := ⟨solvedRows.flatten, by decide⟩

/-- The constructed state for a puzzle of 81 zeros (all cells empty). -/
def zeroSudoku : Sudoku := ⟨List.replicate 81 0, by decide⟩

/-- The solved grid with the single cell `(4, 4)` (flat index 40) cleared. -/
def cleared44 : Sudoku := ⟨solvedRows.flatten.set (4 + 9 * 4) 0, by decide⟩

/-- Modelled from the spec's words, for comparison with `Sudoku.strRepr`:
lines joined by single newlines, with no newline before the first or after
the last line. -/
def joinLines : List (List Char) → List Char
  | [] => []
  | [l] => l
  | l :: ls => l ++ '\n' :: joinLines ls

/-- A 9×9 puzzle whose first element is the out-of-range integer 12. -/
def rangeBadRows : List (List Int) :=
  [12, 0, 0, 0, 0, 0, 0, 0, 0] :: List.replicate 8 (List.replicate 9 (0 : Int))

/-- A puzzle with 10 rows of 9 elements (wrong shape). -/
def tenRows : List (List Int) := List.replicate 10 (List.replicate 9 (0 : Int))

/-- A puzzle with 8 rows of 9 elements (too short). -/
def eightRows : List (List Int) := List.replicate 8 (List.replicate 9 (0 : Int))

/-- The coordinate order in which the loops of `next_empty_index` visit the
grid: `y` outer from 0, `x` inner from 0. -/
def scanOrder : List (Nat × Nat) :=
  (List.range 9).flatMap fun y => (List.range 9).map fun x => (x, y)

example : pyIdx 81 (-1) = some 80 := by decide
example : pyIdx 81 9 = some 9 := by decide
example : pyIdx 81 82 = none := by decide
example : intRepr 7 = ['7'] := by decide

/-! ### Basic lemmas -/

theorem pyIdx_of_nonneg {n : Nat} {i : Int} (h0 : 0 ≤ i) (h1 : i < (n : Int)) :
    pyIdx n i = some i.toNat := by
  simp only [pyIdx]
  rw [show (if i < 0 then i + (n : Int) else i) = i from if_neg (by omega)]
  rw [if_pos ⟨h0, h1⟩]

theorem Sudoku.value_at_nat (s : Sudoku) (x y : Nat) (hx : x < 9) (hy : y < 9) :
    s.value_at x y = s.grid.getD (x + 9 * y) 0 := by
  have hfl : ((x : Int) + 9 * (y : Int)).toNat = x + 9 * y := by omega
  have hlen := s.hlen
  unfold Sudoku.value_at
  rw [if_pos (by constructor <;> omega)]
  unfold pyGet
  rw [pyIdx_of_nonneg (by omega) (by omega), hfl]
  simp [List.getD]

/-! ### C7: `value_at` sentinel behaviour -/

/-- C7: `value_at(x, y)` returns the sentinel `-1` (not an error) whenever `x`
or `y` lies outside `[0, 8]`, and returns the stored cell value (flat index
`x + 9*y` of the grid) when both are in range; in particular
`value_at(-1, 0) = -1` and `value_at(9, 3) = -1`. -/
theorem value_at_spec (s : Sudoku) (x y : Int) :
    (¬ (0 ≤ x ∧ x ≤ 8 ∧ 0 ≤ y ∧ y ≤ 8) → s.value_at x y = -1)
    ∧ (0 ≤ x → x ≤ 8 → 0 ≤ y → y ≤ 8 →
        s.value_at x y = s.grid.getD (x.toNat + 9 * y.toNat) 0)
    ∧ s.value_at (-1) 0 = -1 ∧ s.value_at 9 3 = -1 := by
  refine ⟨fun hout => ?_, fun h1 h2 h3 h4 => ?_, ?_, ?_⟩
  · unfold Sudoku.value_at
    rw [if_neg (by omega)]
  · have := s.value_at_nat x.toNat y.toNat (by omega) (by omega)
    rw [show ((x.toNat : Int)) = x by omega, show ((y.toNat : Int)) = y by omega] at this
    exact this
  · unfold Sudoku.value_at
    rw [if_neg (by omega)]
  · unfold Sudoku.value_at
    rw [if_neg (by omega)]

/-- C7 witness: evaluated on the all-zero grid at `(2, 3)` and at the two
sentinel probes. -/
theorem value_at_spec_witness :
    zeroSudoku.value_at 2 3 = zeroSudoku.grid.getD ((2 : Int).toNat + 9 * (3 : Int).toNat) 0
    ∧ zeroSudoku.value_at (-1) 0 = -1 ∧ zeroSudoku.value_at 9 3 = -1 :=
  ⟨(value_at_spec zeroSudoku 2 3).2.1 (by decide) (by decide) (by decide) (by decide),
   (value_at_spec zeroSudoku 2 3).2.2⟩

/-! ### C8: block index formula and block partition -/

/-- C8: `block_index_of x y = (y / 3) * 3 + x / 3` on `[0,8]²`, and the block
view is a partition: each of the 9 groups of `blkIdx` lists 9 distinct flat
cells, every one of the 81 cells is in some group, no cell is in two groups,
and group `i` holds exactly the cells whose `block_index_of` is `i`. -/
theorem block_partition_spec :
    (∀ x : Nat, x < 9 → ∀ y : Nat, y < 9 → block_index_of x y = (y / 3) * 3 + x / 3)
    ∧ (∀ i : Nat, i < 9 → (blkIdx i).length = 9 ∧ (blkIdx i).Nodup)
    ∧ (∀ j : Nat, j < 81 → ∃ i : Nat, i < 9 ∧ j ∈ blkIdx i)
    ∧ (∀ i₁ : Nat, i₁ < 9 → ∀ i₂ : Nat, i₂ < 9 → ∀ j ∈ blkIdx i₁, j ∈ blkIdx i₂ → i₁ = i₂)
    ∧ (∀ i : Nat, i < 9 → ∀ j : Nat, j < 81 →
        (j ∈ blkIdx i ↔ block_index_of (j % 9) (j / 9) = i)) := by
  refine ⟨by decide, by decide, by decide, by decide, by decide⟩

/-- C8 witness: the partition facts evaluated at concrete indices. -/
theorem block_partition_spec_witness :
    block_index_of 4 7 = (7 / 3) * 3 + 4 / 3
    ∧ (blkIdx 5).length = 9
    ∧ (30 ∈ blkIdx 4 ↔ block_index_of (30 % 9) (30 / 9) = 4) :=
  ⟨block_partition_spec.1 4 (by decide) 7 (by decide),
   (block_partition_spec.2.1 5 (by decide)).1,
   block_partition_spec.2.2.2.2 4 (by decide) 30 (by decide)⟩

/-! ### Lemmas about in-range mutation -/

theorem getD_set_self {l : List Int} {i : Nat} {v : Int} (h : i < l.length) :
    (l.set i v).getD i 0 = v := by
  rw [List.getD_eq_getElem?_getD, List.getElem?_set_self h]
  rfl

theorem getD_set_ne {l : List Int} (i j : Nat) (v : Int) (h : i ≠ j) :
    (l.set i v).getD j 0 = l.getD j 0 := by
  rw [List.getD_eq_getElem?_getD, List.getElem?_set_ne h, ← List.getD_eq_getElem?_getD]

theorem mem_rowIdx {x : Nat} (y : Nat) (hx : x < 9) : x + 9 * y ∈ rowIdx y := by
  simp only [rowIdx, List.mem_map, List.mem_range]
  exact ⟨x, hx, rfl⟩

theorem mem_colIdx (x : Nat) {y : Nat} (hy : y < 9) : x + 9 * y ∈ colIdx x := by
  simp only [colIdx, List.mem_map, List.mem_range]
  exact ⟨y, hy, rfl⟩

theorem mem_blkIdx {x y : Nat} (hx : x < 9) (hy : y < 9) :
    x + 9 * y ∈ blkIdx (block_index_of x y) := by
  simp only [blkIdx, block_index_of, List.mem_flatMap, List.mem_map, List.mem_range]
  refine ⟨x % 3, by omega, y % 3, by omega, by omega⟩

theorem blkIdx_char :
    ∀ i : Nat, i < 9 → ∀ j : Nat, j < 81 →
      (j ∈ blkIdx i ↔ block_index_of (j % 9) (j / 9) = i) := by decide

theorem blkIdx_bound : ∀ i : Nat, i < 9 → ∀ j ∈ blkIdx i, j < 81 := by decide

theorem Sudoku.place_nat (s : Sudoku) (v : Int) (x y : Nat) (hx : x < 9) (hy : y < 9) :
    ∃ s₂ : Sudoku, s.place v x y = some s₂ ∧ s₂.grid = s.grid.set (x + 9 * y) v := by
  have hlen := s.hlen
  unfold Sudoku.place
  rw [show ((x : Int) + 9 * (y : Int)) = ((x + 9 * y : Nat) : Int) by push_cast; ring]
  rw [pyIdx_of_nonneg (by omega) (by omega)]
  exact ⟨_, rfl, by congr 1⟩

theorem Sudoku.unplace_nat (s : Sudoku) (x y : Nat) (hx : x < 9) (hy : y < 9) :
    ∃ s₂ : Sudoku, s.unplace x y = some s₂ ∧ s₂.grid = s.grid.set (x + 9 * y) 0 := by
  have hlen := s.hlen
  unfold Sudoku.unplace
  rw [show ((x : Int) + 9 * (y : Int)) = ((x + 9 * y : Nat) : Int) by push_cast; ring]
  rw [pyIdx_of_nonneg (by omega) (by omega)]
  exact ⟨_, rfl, by congr 1⟩

/-! ### C1: view aliasing after `place` -/

/-- C1: for `x, y` in `[0,8]` and `v` in `[1,9]`, `place(v, x, y)` succeeds
and afterwards `value_at(x, y) = v`, and `v` appears in `row_values(y)`,
`column_values(x)` and `block_values(block_index_of(x, y))`. -/
theorem place_view_aliasing (s : Sudoku) (v : Int) (x y : Nat)
    (hx : x < 9) (hy : y < 9) (hv1 : 1 ≤ v) (hv9 : v ≤ 9) :
    ∃ s₂ : Sudoku, s.place v x y = some s₂
      ∧ s₂.value_at x y = v
      ∧ v ∈ s₂.row_values y
      ∧ v ∈ s₂.column_values x
      ∧ v ∈ s₂.block_values (block_index_of x y) := by
  obtain ⟨s₂, hp, hg⟩ := s.place_nat v x y hx hy
  have hlen := s.hlen
  have hcell : s₂.grid.getD (x + 9 * y) 0 = v := by
    rw [hg, getD_set_self (by omega)]
  refine ⟨s₂, hp, ?_, ?_, ?_, ?_⟩
  · rw [s₂.value_at_nat x y hx hy, hcell]
  · exact List.mem_map.mpr ⟨x + 9 * y, mem_rowIdx y hx, hcell⟩
  · exact List.mem_map.mpr ⟨x + 9 * y, mem_colIdx x hy, hcell⟩
  · exact List.mem_map.mpr ⟨x + 9 * y, mem_blkIdx hx hy, hcell⟩

/-- C1 witness: place 5 at `(2, 3)` on the all-empty grid. -/
theorem place_view_aliasing_witness :
    ∃ s₂ : Sudoku, zeroSudoku.place 5 2 3 = some s₂
      ∧ s₂.value_at 2 3 = 5
      ∧ (5 : Int) ∈ s₂.row_values 3
      ∧ (5 : Int) ∈ s₂.column_values 2
      ∧ (5 : Int) ∈ s₂.block_values (block_index_of 2 3) :=
  place_view_aliasing zeroSudoku 5 2 3 (by decide) (by decide) (by decide) (by decide)

/-! ### C3: `options_at` computes the candidate set -/

/-- C3: for `x, y` in `[0,8]`, `options_at(x, y)` is (duplicate-free, as a
`Finset`) exactly the digits `1..9` not occurring among the row `y` values,
the column `x` values, or the values of the block containing `(x, y)`. -/
theorem options_at_spec (s : Sudoku) (x y : Nat) (hx : x < 9) (hy : y < 9) (d : Int) :
    d ∈ s.options_at x y ↔
      ((1 ≤ d ∧ d ≤ 9) ∧ d ∉ s.row_values y ∧ d ∉ s.column_values x
        ∧ d ∉ s.block_values (block_index_of x y)) := by
  have h19 : d ∈ ({1, 2, 3, 4, 5, 6, 7, 8, 9} : Finset Int) ↔ 1 ≤ d ∧ d ≤ 9 := by
    simp only [Finset.mem_insert, Finset.mem_singleton]
    omega
  simp only [Sudoku.options_at, Finset.mem_sdiff, Finset.mem_union, List.mem_toFinset, h19]
  tauto

/-- C3 witness: evaluated on the solved grid at `(0, 0)` for digit 5. -/
theorem options_at_spec_witness :
    (5 : Int) ∈ solvedSudoku.options_at 0 0 ↔
      ((1 ≤ (5 : Int) ∧ (5 : Int) ≤ 9) ∧ (5 : Int) ∉ solvedSudoku.row_values 0
        ∧ (5 : Int) ∉ solvedSudoku.column_values 0
        ∧ (5 : Int) ∉ solvedSudoku.block_values (block_index_of 0 0)) :=
  options_at_spec solvedSudoku 0 0 (by decide) (by decide) 5

/-! ### C10: frame property of `place` / `unplace` -/

theorem frame_core (s s₂ : Sudoku) (w : Int) (x y : Nat) (hx : x < 9) (hy : y < 9)
    (hg : s₂.grid = s.grid.set (x + 9 * y) w) :
    (∀ a b : Nat, a < 9 → b < 9 → ¬(a = x ∧ b = y) → s₂.value_at a b = s.value_at a b)
    ∧ (∀ i : Nat, i < 9 → i ≠ y → s₂.row_values i = s.row_values i)
    ∧ (∀ i : Nat, i < 9 → i ≠ x → s₂.column_values i = s.column_values i)
    ∧ (∀ i : Nat, i < 9 → i ≠ block_index_of x y →
        s₂.block_values i = s.block_values i) := by
  refine ⟨?_, ?_, ?_, ?_⟩
  · intro a b ha hb hne
    rw [s₂.value_at_nat a b ha hb, s.value_at_nat a b ha hb, hg,
      getD_set_ne _ _ _ (by omega)]
  · intro i hi hne
    unfold Sudoku.row_values
    refine List.map_congr_left ?_
    intro j hj
    simp only [rowIdx, List.mem_map, List.mem_range] at hj
    obtain ⟨a, ha, rfl⟩ := hj
    rw [hg, getD_set_ne _ _ _ (by omega)]
  · intro i hi hne
    unfold Sudoku.column_values
    refine List.map_congr_left ?_
    intro j hj
    simp only [colIdx, List.mem_map, List.mem_range] at hj
    obtain ⟨b, hb, rfl⟩ := hj
    rw [hg, getD_set_ne _ _ _ (by omega)]
  · intro i hi hne
    unfold Sudoku.block_values
    refine List.map_congr_left ?_
    intro j hj
    have hj81 := blkIdx_bound i hi j hj
    have hchar := (blkIdx_char i hi j hj81).mp hj
    rw [hg]
    apply getD_set_ne
    intro hEq
    have hx9 : j % 9 = x := by omega
    have hy9 : j / 9 = y := by omega
    rw [hx9, hy9] at hchar
    exact hne hchar.symm

/-- C10: for `x, y` in `[0,8]`, `place(v, x, y)` and `unplace(x, y)` modify
only the cell `(x, y)`: every other in-range coordinate reads the same value
through `value_at`, and every row, column and block group not containing
`(x, y)` yields unchanged view values. -/
theorem place_unplace_frame (s : Sudoku) (v : Int) (x y : Nat)
    (hx : x < 9) (hy : y < 9) :
    (∃ s₂ : Sudoku, s.place v x y = some s₂
       ∧ (∀ a b : Nat, a < 9 → b < 9 → ¬(a = x ∧ b = y) →
            s₂.value_at a b = s.value_at a b)
       ∧ (∀ i : Nat, i < 9 → i ≠ y → s₂.row_values i = s.row_values i)
       ∧ (∀ i : Nat, i < 9 → i ≠ x → s₂.column_values i = s.column_values i)
       ∧ (∀ i : Nat, i < 9 → i ≠ block_index_of x y →
            s₂.block_values i = s.block_values i))
    ∧ (∃ s₃ : Sudoku, s.unplace x y = some s₃
       ∧ (∀ a b : Nat, a < 9 → b < 9 → ¬(a = x ∧ b = y) →
            s₃.value_at a b = s.value_at a b)) := by
  constructor
  · obtain ⟨s₂, hp, hg⟩ := s.place_nat v x y hx hy
    obtain ⟨h1, h2, h3, h4⟩ := frame_core s s₂ v x y hx hy hg
    exact ⟨s₂, hp, h1, h2, h3, h4⟩
  · obtain ⟨s₃, hp, hg⟩ := s.unplace_nat x y hx hy
    obtain ⟨h1, _, _, _⟩ := frame_core s s₃ 0 x y hx hy hg
    exact ⟨s₃, hp, h1⟩

/-- C10 witness: placing 7 at `(4, 4)` on the solved grid, checked at the
neighbouring cell `(3, 4)` and at row 0. -/
theorem place_unplace_frame_witness :
    ∃ s₂ : Sudoku, solvedSudoku.place 7 4 4 = some s₂
      ∧ s₂.value_at 3 4 = solvedSudoku.value_at 3 4
      ∧ s₂.row_values 0 = solvedSudoku.row_values 0 := by
  obtain ⟨⟨s₂, hp, hv, hr, _, _⟩, _⟩ :=
    place_unplace_frame solvedSudoku 7 4 4 (by decide) (by decide)
  exact ⟨s₂, hp, hv 3 4 (by decide) (by decide) (by decide), hr 0 (by decide) (by decide)⟩

/-! ### C2: `is_solved` is set equality on every group -/

theorem group_eq (l : List Int) (hlen : l.length = 9)
    (h : ({1, 2, 3, 4, 5, 6, 7, 8, 9} : Finset Int) ⊆ l.toFinset) :
    l.toFinset = ({1, 2, 3, 4, 5, 6, 7, 8, 9} : Finset Int) := by
  refine (Finset.eq_of_subset_of_card_le h ?_).symm
  have hc : l.toFinset.card ≤ l.length := l.toFinset_card_le
  have h9 : ({1, 2, 3, 4, 5, 6, 7, 8, 9} : Finset Int).card = 9 := by decide
  omega

/-- C2: `is_solved()` returns `true` iff for every `i` in `[0,8]` the set of
values of row `i`, of column `i`, and of block `i` each equals exactly
`{1,…,9}`; the code's subset test (`{1..9} - group = ∅`) coincides with set
equality because each group lists 9 values. -/
theorem is_solved_spec (s : Sudoku) :
    s.is_solved = true ↔
      (∀ i : Nat, i < 9 →
        (s.row_values i).toFinset = ({1, 2, 3, 4, 5, 6, 7, 8, 9} : Finset Int)
        ∧ (s.column_values i).toFinset = ({1, 2, 3, 4, 5, 6, 7, 8, 9} : Finset Int)
        ∧ (s.block_values i).toFinset = ({1, 2, 3, 4, 5, 6, 7, 8, 9} : Finset Int)) := by
  unfold Sudoku.is_solved
  rw [List.all_eq_true]
  constructor
  · intro h i hi
    have h2 := h i (List.mem_range.mpr hi)
    rw [decide_eq_true_eq, Finset.union_eq_empty, Finset.union_eq_empty] at h2
    obtain ⟨⟨hr, hc⟩, hb⟩ := h2
    rw [Finset.sdiff_eq_empty_iff_subset] at hr hc hb
    refine ⟨group_eq _ ?_ hr, group_eq _ ?_ hc, group_eq _ ?_ hb⟩
    · simp [Sudoku.row_values, rowIdx]
    · simp [Sudoku.column_values, colIdx]
    · have hb9 : (blkIdx i).length = 9 := by interval_cases i <;> decide
      simp [Sudoku.block_values, hb9]
  · intro h i hi
    rw [List.mem_range] at hi
    obtain ⟨hr, hc, hb⟩ := h i hi
    rw [decide_eq_true_eq, hr, hc, hb]
    simp

/-- C2 witness: the solved grid — the right-hand side holds by evaluation,
hence `is_solved` returns `true`. -/
theorem is_solved_spec_witness : solvedSudoku.is_solved = true :=
  (is_solved_spec solvedSudoku).mpr (by decide)

/-! ### C5: out-of-range coordinates in `place` / `unplace` -/

theorem pyIdx_81 (i : Int) :
    pyIdx 81 i = if -81 ≤ i ∧ i < 81 then some (i % 81).toNat else none := by
  simp only [pyIdx]
  split_ifs <;> first | rfl | (congr 1; omega)

/-- C5 counterexample: on the solved grid, `place(5, 9, 0)` does not fail —
it silently writes cell `(0, 1)` — and `unplace(-1, 0)` does not fail — the
negative flat index wraps to cell `(8, 8)`, clearing its 9. -/
theorem place_oob_counterexample :
    (solvedSudoku.place 5 9 0).isSome = true
    ∧ ((solvedSudoku.place 5 9 0).map fun s₂ => s₂.value_at 0 1) = some 5
    ∧ solvedSudoku.value_at 0 1 = 6
    ∧ (solvedSudoku.unplace (-1) 0).isSome = true
    ∧ ((solvedSudoku.unplace (-1) 0).map fun s₃ => s₃.value_at 8 8) = some 0
    ∧ solvedSudoku.value_at 8 8 = 9 := by
  refine ⟨rfl, rfl, rfl, rfl, rfl, rfl⟩

/-- C5 amended: `place` and `unplace` perform no coordinate validation; they
index the flat 81-cell store at `x + 9*y` with Python list semantics, so any
coordinates with `-81 ≤ x + 9*y < 81` succeed, writing the cell at flat index
`(x + 9*y) mod 81` (a different cell when `(x, y)` is out of range), and the
operations fail (with an IndexError, not an OutOfBounds error) exactly when
`x + 9*y` falls outside `[-81, 80]`. -/
theorem place_unplace_oob (s : Sudoku) (hl : s.grid.length = 81) (v x y : Int) :
    (s.place v x y = none ↔ (x + 9 * y < -81 ∨ 81 ≤ x + 9 * y))
    ∧ (∀ s₂ : Sudoku, s.place v x y = some s₂ →
        s₂.grid = s.grid.set ((x + 9 * y) % 81).toNat v)
    ∧ (s.unplace x y = none ↔ (x + 9 * y < -81 ∨ 81 ≤ x + 9 * y))
    ∧ (∀ s₃ : Sudoku, s.unplace x y = some s₃ →
        s₃.grid = s.grid.set ((x + 9 * y) % 81).toNat 0) := by
  unfold Sudoku.place Sudoku.unplace
  rw [hl, pyIdx_81]
  by_cases hb : -81 ≤ x + 9 * y ∧ x + 9 * y < 81
  · rw [if_pos hb]
    refine ⟨by simp; omega, ?_, by simp; omega, ?_⟩
    · intro s₂ h2
      simp only [Option.some.injEq] at h2
      rw [← h2]
    · intro s₃ h3
      simp only [Option.some.injEq] at h3
      rw [← h3]
  · rw [if_neg hb]
    refine ⟨by simp; omega, ?_, by simp; omega, ?_⟩
    · intro s₂ h2
      simp at h2
    · intro s₃ h3
      simp at h3

/-- C5 amended witness: `place(5, 9, 0)` on the solved grid resolves to flat
index 9 and succeeds; `place(5, 0, 10)` (flat index 90) fails. -/
theorem place_unplace_oob_witness :
    (solvedSudoku.place 5 0 10 = none ↔
      ((0 : Int) + 9 * 10 < -81 ∨ 81 ≤ (0 : Int) + 9 * 10))
    ∧ ∀ s₂ : Sudoku, solvedSudoku.place 5 9 0 = some s₂ →
        s₂.grid = solvedSudoku.grid.set (((9 : Int) + 9 * 0) % 81).toNat 5 :=
  ⟨(place_unplace_oob solvedSudoku rfl 5 0 10).1,
   (place_unplace_oob solvedSudoku rfl 5 9 0).2.1⟩

/-! ### C6: construction (non-)validation -/

/-- C6 counterexample: construction accepts without error a 9×9 puzzle whose
first element is the out-of-range integer 12, and a puzzle with 10 rows. -/
theorem construction_counterexample :
    (mkSudoku rangeBadRows).isSome = true ∧ (mkSudoku tenRows).isSome = true :=
  ⟨rfl, rfl⟩

/-- C6 amended: construction validates nothing: with integer elements it
fails (with an IndexError raised while building the views, not an
`InvalidPuzzle` error) exactly when the row-major flattening of the input has
fewer than 81 elements; wrong row counts with at least 81 elements, overlong
rows and out-of-range integers are accepted silently, the grid being the
flattened input. -/
theorem construction_spec (puzzle : List (List Int)) :
    (mkSudoku puzzle = none ↔ puzzle.flatten.length < 81)
    ∧ (∀ s : Sudoku, mkSudoku puzzle = some s → s.grid = puzzle.flatten) := by
  unfold mkSudoku
  split_ifs with h
  · refine ⟨⟨fun hx => (nomatch hx), fun hx => absurd hx (by omega)⟩, ?_⟩
    intro s hs
    simp only [Option.some.injEq] at hs
    rw [← hs]
  · refine ⟨⟨fun _ => (by omega), fun _ => rfl⟩, ?_⟩
    intro s hs
    simp at hs

/-- C6 amended witness: a puzzle of 8 rows of 9 elements (72 < 81 cells)
fails to construct. -/
theorem construction_spec_witness : mkSudoku eightRows = none :=
  (construction_spec eightRows).1.mpr (by decide)

/-! ### C4: `next_empty_index` scan -/

theorem foldl_flatMap {α β γ : Type} (g : α → List γ) (f : β → γ → β)
    (l : List α) (init : β) :
    (l.flatMap g).foldl f init = l.foldl (fun acc a => (g a).foldl f acc) init := by
  induction l generalizing init with
  | nil => rfl
  | cons a as ih => simp [List.flatMap_cons, List.foldl_append, ih]

theorem foldl_scan_stuck (q : Nat × Nat → Prop) [DecidablePred q]
    (l : List (Nat × Nat)) (acc : Int × Int) (h : ¬ (acc.1 = -1 ∧ acc.2 = -1)) :
    l.foldl
      (fun acc c =>
        if q c ∧ acc.1 = -1 ∧ acc.2 = -1 then ((c.1 : Int), (c.2 : Int)) else acc)
      acc = acc := by
  induction l with
  | nil => rfl
  | cons c cs ih =>
    rw [List.foldl_cons, if_neg (by tauto)]
    exact ih

theorem foldl_scan_start (q : Nat × Nat → Prop) [DecidablePred q]
    (l : List (Nat × Nat)) :
    l.foldl
      (fun acc c =>
        if q c ∧ acc.1 = -1 ∧ acc.2 = -1 then ((c.1 : Int), (c.2 : Int)) else acc)
      (-1, -1)
      = match l.find? (fun c => decide (q c)) with
        | some c => ((c.1 : Int), (c.2 : Int))
        | none => (-1, -1) := by
  induction l with
  | nil => rfl
  | cons c cs ih =>
    by_cases hq : q c
    · rw [List.foldl_cons, if_pos ⟨hq, rfl, rfl⟩,
        foldl_scan_stuck q cs _ (by
          intro hcon
          obtain ⟨h1, h2⟩ := hcon
          simp only [] at h1
          omega),
        List.find?_cons_of_pos _ (by simpa using hq)]
    · rw [List.foldl_cons, if_neg (by tauto), ih,
        List.find?_cons_of_neg _ (by simpa using hq)]

theorem find?_eq_some_first {α : Type} (q : α → Bool) (l : List α) :
    ∀ c : α, l.find? q = some c ↔
      ∃ n : Nat, l.get? n = some c ∧ q c = true
        ∧ ∀ m : Nat, m < n → ∃ d, l.get? m = some d ∧ q d = false := by
  induction l with
  | nil => intro c; simp
  | cons a as ih =>
    intro c
    by_cases hq : q a = true
    · rw [List.find?_cons_of_pos _ hq]
      constructor
      · intro h
        injection h with h
        subst h
        exact ⟨0, rfl, hq, fun m hm => absurd hm (by omega)⟩
      · rintro ⟨n, hn, hqc, hfirst⟩
        cases n with
        | zero =>
          injection hn with hn
          rw [hn]
        | succ n =>
          obtain ⟨d, hd, hdq⟩ := hfirst 0 (by omega)
          injection hd with hd
          rw [← hd] at hdq
          rw [hq] at hdq
          cases hdq
    · rw [List.find?_cons_of_neg _ hq, ih c]
      constructor
      · rintro ⟨n, hn, hqc, hfirst⟩
        refine ⟨n + 1, by simpa using hn, hqc, fun m hm => ?_⟩
        cases m with
        | zero => exact ⟨a, rfl, by simpa using hq⟩
        | succ m => exact hfirst m (by omega)
      · rintro ⟨n, hn, hqc, hfirst⟩
        cases n with
        | zero =>
          injection hn with hn
          rw [← hn] at hqc
          rw [hqc] at hq
          cases hq rfl
        | succ n =>
          exact ⟨n, by simpa using hn, hqc, fun m hm => hfirst (m + 1) (by omega)⟩

theorem scanOrder_get : ∀ n : Nat, n < 81 → scanOrder.get? n = some (n % 9, n / 9) := by
  decide

theorem scanOrder_bound : ∀ c ∈ scanOrder, c.1 < 9 ∧ c.2 < 9 := by decide

theorem scanOrder_mem : ∀ a : Nat, a < 9 → ∀ b : Nat, b < 9 → (a, b) ∈ scanOrder := by
  decide

theorem scanOrder_len : scanOrder.length = 81 := rfl

theorem next_empty_eq_find (s : Sudoku) :
    s.next_empty_index
      = match scanOrder.find? (fun c => decide (s.value_at c.1 c.2 = 0)) with
        | some c => ((c.1 : Int), (c.2 : Int))
        | none => (-1, -1) := by
  have h1 : s.next_empty_index
      = scanOrder.foldl
          (fun acc c =>
            if s.value_at c.1 c.2 = 0 ∧ acc.1 = -1 ∧ acc.2 = -1
            then ((c.1 : Int), (c.2 : Int)) else acc)
          (-1, -1) := by
    unfold Sudoku.next_empty_index scanOrder
    rw [foldl_flatMap]
    simp only [List.foldl_map]
  rw [h1]
  exact foldl_scan_start (fun c => s.value_at c.1 c.2 = 0) scanOrder

/-- C4: `next_empty_index()` returns the coordinate `(x, y)` of the first
cell with value 0 in row-major scan order (`y` outer from 0, `x` inner from
0), and returns `(-1, -1)` exactly when no cell holds 0. -/
theorem next_empty_index_spec (s : Sudoku) :
    (s.next_empty_index = (-1, -1) ↔
      ∀ a : Nat, a < 9 → ∀ b : Nat, b < 9 → s.value_at a b ≠ 0)
    ∧ (∀ a b : Nat, a < 9 → b < 9 →
        (s.next_empty_index = ((a : Int), (b : Int)) ↔
          (s.value_at a b = 0
            ∧ ∀ a2 : Nat, a2 < 9 → ∀ b2 : Nat, b2 < 9 →
                (b2 < b ∨ (b2 = b ∧ a2 < a)) → s.value_at a2 b2 ≠ 0))) := by
  rw [next_empty_eq_find]
  constructor
  · cases hf : scanOrder.find? (fun c => decide (s.value_at c.1 c.2 = 0)) with
    | none =>
      simp only [hf]
      constructor
      · intro _ a ha b hb hz
        have hall := List.find?_eq_none.mp hf (a, b) (scanOrder_mem a ha b hb)
        exact hall (by simpa using hz)
      · intro _
        trivial
    | some c =>
      simp only [hf]
      constructor
      · intro hEq
        exfalso
        have h1 : (c.1 : Int) = -1 := congrArg Prod.fst hEq
        omega
      · intro hnone
        exfalso
        have hqc := List.find?_some hf
        have hmem := List.mem_of_find?_eq_some hf
        have hbd := scanOrder_bound c hmem
        exact hnone c.1 hbd.1 c.2 hbd.2 (by simpa using hqc)
  · intro a b ha hb
    cases hf : scanOrder.find? (fun c => decide (s.value_at c.1 c.2 = 0)) with
    | none =>
      simp only [hf]
      constructor
      · intro hEq
        exfalso
        have h1 : (-1 : Int) = (a : Int) := congrArg Prod.fst hEq
        omega
      · rintro ⟨hz, _⟩
        exfalso
        have hall := List.find?_eq_none.mp hf (a, b) (scanOrder_mem a ha b hb)
        exact hall (by simpa using hz)
    | some c =>
      simp only [hf]
      rw [find?_eq_some_first] at hf
      obtain ⟨n, hn, hqc, hfirst⟩ := hf
      have hn81 : n < 81 := by
        by_contra hcon
        have hnone : scanOrder.get? n = none :=
          List.get?_eq_none.mpr (by rw [scanOrder_len]; omega)
        rw [hnone] at hn
        cases hn
      have hcn : c = (n % 9, n / 9) := by
        have hg := scanOrder_get n hn81
        rw [hg] at hn
        injection hn with hn
        exact hn.symm
      have hcv : s.value_at ((n % 9 : Nat) : Int) ((n / 9 : Nat) : Int) = 0 := by
        rw [hcn] at hqc
        simpa using hqc
      constructor
      · intro hEq
        have h1 : (c.1 : Int) = (a : Int) := congrArg Prod.fst hEq
        have h2 : (c.2 : Int) = (b : Int) := congrArg Prod.snd hEq
        have hna : n % 9 = a := by rw [hcn] at h1; simp only [] at h1; omega
        have hnb : n / 9 = b := by rw [hcn] at h2; simp only [] at h2; omega
        refine ⟨by rw [← hna, ← hnb]; exact hcv, ?_⟩
        intro a2 ha2 b2 hb2 hord hz2
        have hm : a2 + 9 * b2 < n := by omega
        obtain ⟨d, hd, hdq⟩ := hfirst (a2 + 9 * b2) hm
        have hdg := scanOrder_get (a2 + 9 * b2) (by omega)
        rw [hdg] at hd
        injection hd with hd
        cases hd
        simp only [decide_eq_false_iff_not] at hdq
        have e1 : (a2 + 9 * b2) % 9 = a2 := by omega
        have e2 : (a2 + 9 * b2) / 9 = b2 := by omega
        rw [e1, e2] at hdq
        exact hdq hz2
      · rintro ⟨hz, hfs⟩
        have hne : n = a + 9 * b := by
          rcases Nat.lt_trichotomy n (a + 9 * b) with hlt | heq | hgt
          · exfalso
            have hord : (n / 9 < b ∨ (n / 9 = b ∧ n % 9 < a)) := by omega
            exact hfs (n % 9) (by omega) (n / 9) (by omega) hord hcv
          · exact heq
          · exfalso
            obtain ⟨d, hd, hdq⟩ := hfirst (a + 9 * b) hgt
            have hdg := scanOrder_get (a + 9 * b) (by omega)
            rw [hdg] at hd
            injection hd with hd
            cases hd
            simp only [decide_eq_false_iff_not] at hdq
            have e1 : (a + 9 * b) % 9 = a := by omega
            have e2 : (a + 9 * b) / 9 = b := by omega
            rw [e1, e2] at hdq
            exact hdq hz
        rw [hcn, hne]
        show ((((a + 9 * b) % 9 : Nat) : Int), (((a + 9 * b) / 9 : Nat) : Int))
          = ((a : Int), (b : Int))
        have e1 : (a + 9 * b) % 9 = a := by omega
        have e2 : (a + 9 * b) / 9 = b := by omega
        rw [e1, e2]

/-- C4 witness: on the solved grid with cell `(4, 4)` cleared the scan
reports `(4, 4)`; on the fully filled solved grid it reports `(-1, -1)`. -/
theorem next_empty_index_spec_witness :
    cleared44.next_empty_index = ((4 : Int), (4 : Int))
    ∧ solvedSudoku.next_empty_index = (-1, -1) :=
  ⟨((next_empty_index_spec cleared44).2 4 4 (by decide) (by decide)).mpr
      ⟨by decide, by decide⟩,
   (next_empty_index_spec solvedSudoku).1.mpr (by decide)⟩

/-! ### C9: textual rendering -/

theorem intRepr_digit (v : Int) (h0 : 0 ≤ v) (h9 : v ≤ 9) :
    intRepr v = [Nat.digitChar v.toNat] := by
  interval_cases v <;> rfl

theorem dig_not_ws (v : Int) (h0 : 0 ≤ v) (h9 : v ≤ 9) :
    isPySpace (Nat.digitChar v.toNat) = false := by
  interval_cases v <;> rfl

theorem flatten_map_singleton (f : Int → Char) (l : List Int) :
    (l.map fun v => [f v]).flatten = l.map f := by
  induction l with
  | nil => rfl
  | cons a t ih => simp [ih]

theorem foldl_append_nl (f : Nat → List Char) (l : List Nat) (init : List Char) :
    l.foldl (fun acc i => acc ++ f i ++ ['\n']) init
      = init ++ (l.map fun i => f i ++ ['\n']).flatten := by
  induction l generalizing init with
  | nil => simp
  | cons a t ih =>
    rw [List.foldl_cons, ih]
    simp

theorem joinLines_ne_nil (l : List Char) (ls : List (List Char)) (h : l ≠ []) :
    joinLines (l :: ls) ≠ [] := by
  cases ls with
  | nil => exact h
  | cons l2 ls2 =>
    show l ++ '\n' :: joinLines (l2 :: ls2) ≠ []
    simp

theorem flatten_map_append_nl (L : List (List Char)) (h : L ≠ []) :
    (L.map fun l => l ++ ['\n']).flatten = joinLines L ++ ['\n'] := by
  induction L with
  | nil => exact absurd rfl h
  | cons l L2 ih =>
    cases L2 with
    | nil => simp [joinLines]
    | cons l2 L3 =>
      rw [List.map_cons, List.flatten_cons, ih (by simp)]
      have hjl : joinLines (l :: l2 :: L3) = l ++ '\n' :: joinLines (l2 :: L3) := rfl
      rw [hjl]
      simp

theorem dropWhile_self_of_all (l : List Char) (hall : ∀ c ∈ l, isPySpace c = false) :
    l.dropWhile isPySpace = l := by
  rw [List.dropWhile_eq_self_iff]
  intro hl
  have hmem : l.get ⟨0, hl⟩ ∈ l := l.get_mem 0 hl
  simp only [Bool.not_eq_true]
  exact hall _ hmem

theorem dropWhile_append_of_ne (xs ys : List Char) (hne : xs ≠ [])
    (h : xs.dropWhile isPySpace = xs) :
    (xs ++ ys).dropWhile isPySpace = xs ++ ys := by
  cases xs with
  | nil => exact absurd rfl hne
  | cons c t =>
    have hc : ¬ isPySpace c = true := by
      have := List.dropWhile_eq_self_iff.mp h (by simp)
      simpa using this
    rw [List.cons_append, List.dropWhile_cons, if_neg hc]

theorem stripWS_append_nl (m : List Char)
    (hf : m.dropWhile isPySpace = m)
    (hb : m.reverse.dropWhile isPySpace = m.reverse) :
    stripWS (m ++ ['\n']) = m := by
  cases hm : m with
  | nil => rfl
  | cons c t =>
    rw [← hm]
    unfold stripWS
    rw [dropWhile_append_of_ne m ['\n'] (by rw [hm]; simp) hf]
    rw [List.reverse_append]
    show (('\n' :: m.reverse).dropWhile isPySpace).reverse = m
    rw [List.dropWhile_cons, if_pos (show isPySpace '\n' = true from rfl), hb,
      List.reverse_reverse]

theorem joinLines_clean (L : List (List Char))
    (h : ∀ l ∈ L, l ≠ [] ∧ ∀ c ∈ l, isPySpace c = false) :
    (joinLines L).dropWhile isPySpace = joinLines L
    ∧ (joinLines L).reverse.dropWhile isPySpace = (joinLines L).reverse := by
  induction L with
  | nil => exact ⟨rfl, rfl⟩
  | cons l L2 ih =>
    obtain ⟨hlne, hlc⟩ := h l (by simp)
    cases L2 with
    | nil =>
      exact ⟨dropWhile_self_of_all l hlc,
        dropWhile_self_of_all l.reverse (fun c hc => hlc c (List.mem_reverse.mp hc))⟩
    | cons l2 L3 =>
      obtain ⟨ihf, ihb⟩ := ih (fun x hx => h x (by simp [hx]))
      have hJne : joinLines (l2 :: L3) ≠ [] :=
        joinLines_ne_nil l2 L3 (h l2 (by simp)).1
      constructor
      · show (l ++ '\n' :: joinLines (l2 :: L3)).dropWhile isPySpace
          = l ++ '\n' :: joinLines (l2 :: L3)
        exact dropWhile_append_of_ne _ _ hlne (dropWhile_self_of_all l hlc)
      · show (l ++ '\n' :: joinLines (l2 :: L3)).reverse.dropWhile isPySpace
          = (l ++ '\n' :: joinLines (l2 :: L3)).reverse
        rw [List.reverse_append, List.reverse_cons, List.append_assoc]
        exact dropWhile_append_of_ne _ _ (by simpa using hJne) ihb

/-- C9: for every grid whose cells hold values in `[0,9]` (the data model's
cell range), `__str__` renders exactly the 9 row lines joined by single
newlines — no leading or trailing blank lines — where line `i` is the
9-digit concatenation of row `i`'s values in column order `0–8`. -/
theorem strRepr_spec (s : Sudoku)
    (hcells : ∀ j : Nat, j < 81 → 0 ≤ s.grid.getD j 0 ∧ s.grid.getD j 0 ≤ 9) :
    s.strRepr
      = joinLines ((List.range 9).map fun i =>
          (s.row_values i).map fun v => Nat.digitChar v.toNat)
    ∧ ∀ i : Nat, i < 9 →
        ((s.row_values i).map fun v => Nat.digitChar v.toNat).length = 9 := by
  have hlen9 : ∀ i : Nat,
      ((s.row_values i).map fun v => Nat.digitChar v.toNat).length = 9 := by
    intro i
    simp [Sudoku.row_values, rowIdx]
  have hmemrange : ∀ i : Nat, i < 9 → ∀ v ∈ s.row_values i, 0 ≤ v ∧ v ≤ 9 := by
    intro i hi v hv
    simp only [Sudoku.row_values, rowIdx, List.mem_map, List.mem_range] at hv
    obtain ⟨j, ⟨a, ha, rfl⟩, rfl⟩ := hv
    exact hcells (a + 9 * i) (by omega)
  have hclean : ∀ l ∈ (List.range 9).map
        (fun i => (s.row_values i).map fun v => Nat.digitChar v.toNat),
      l ≠ [] ∧ ∀ c ∈ l, isPySpace c = false := by
    intro l hl
    simp only [List.mem_map, List.mem_range] at hl
    obtain ⟨i, hi, rfl⟩ := hl
    constructor
    · intro hnil
      have := hlen9 i
      rw [hnil] at this
      simp at this
    · intro c hc
      simp only [List.mem_map] at hc
      obtain ⟨v, hv, rfl⟩ := hc
      obtain ⟨h0, h9⟩ := hmemrange i hi v hv
      exact dig_not_ws v h0 h9
  refine ⟨?_, fun i _ => hlen9 i⟩
  unfold Sudoku.strRepr
  rw [foldl_append_nl (fun i => ((s.row_values i).map intRepr).flatten)
    (List.range 9) [], List.nil_append]
  have hline : (List.range 9).map
        (fun i => ((s.row_values i).map intRepr).flatten ++ ['\n'])
      = ((List.range 9).map fun i =>
          (s.row_values i).map fun v => Nat.digitChar v.toNat).map
          (fun l => l ++ ['\n']) := by
    rw [List.map_map]
    refine List.map_congr_left ?_
    intro i hi
    rw [List.mem_range] at hi
    show ((s.row_values i).map intRepr).flatten ++ ['\n']
      = ((s.row_values i).map fun v => Nat.digitChar v.toNat) ++ ['\n']
    have hmap : (s.row_values i).map intRepr
        = (s.row_values i).map fun v => [Nat.digitChar v.toNat] := by
      refine List.map_congr_left ?_
      intro v hv
      obtain ⟨h0, h9⟩ := hmemrange i hi v hv
      exact intRepr_digit v h0 h9
    rw [hmap, flatten_map_singleton]
  rw [hline, flatten_map_append_nl _ (by simp)]
  exact stripWS_append_nl _ (joinLines_clean _ hclean).1 (joinLines_clean _ hclean).2

/-- C9 witness: the solved grid renders to its 9 lines of digits. -/
theorem strRepr_spec_witness :
    solvedSudoku.strRepr
      = joinLines ((List.range 9).map fun i =>
          (solvedSudoku.row_values i).map fun v => Nat.digitChar v.toNat)
    ∧ ∀ i : Nat, i < 9 →
        ((solvedSudoku.row_values i).map fun v => Nat.digitChar v.toNat).length = 9 :=
  strRepr_spec solvedSudoku (by decide)
